import Mathlib

/-!
Verification of the ATestRunner execution engine against its design
specification.

The development shallowly embeds the four algorithmic cores of
`src/ATestRunner.js` (the file contains the v2.0.0, v2.1.0 and v3.0.2
evolutions of the same class; where they differ the embedding follows the
latest behaviour and the differences are noted in the doc comments):

* the deep-equality comparator `equal` (source lines 277-320, identical in
  all three versions), modelled over an explicit heap so that reference
  identity, shared references and cyclic object graphs are expressible;
* the single-test executor `#executeTest` (source lines 589-622);
* the queue scheduler `#processQueue` / `#processGroupResults` / `#report`
  (v2.1.0 lines 969-1024, a superset of the v2.0.0 logic that additionally
  tracks a per-group verdict);
* the spy subsystem `spyOn`.

JavaScript asynchrony is modelled by explicit settle times on pending
values; `Promise.all` is modelled by its ECMAScript guarantee that the
resolved array is in input order, independent of completion order.
-/

/-! ## The value model for the deep-equality comparator

JS values are split into primitives (compared by `===`, which on the
modelled primitives coincides with structural equality) and references
into an explicit heap.  `typeof null === 'object'` needs no special case
because the source guards `x === null` separately; in the model `null`
is simply a primitive and only references are "objects". -/

/-- Primitive JS values (numbers are modelled as integers; the claims do
not involve NaN or signed zeros, the only primitives on which `===`
differs from structural equality). -/
inductive Prim
  | num (n : Int)
  | str (s : String)
  | bool (b : Bool)
  | null
  | undef
deriving DecidableEq

/-- A JS value: a primitive, or a reference into the heap. -/
inductive Val
  | prim (p : Prim)
  | ref (r : Nat)
deriving DecidableEq

/-- A heap object.  Field/element lists are in JS insertion order.  Plain
objects and Maps are assumed to have pairwise distinct keys and Sets
pairwise distinct elements (guaranteed by JS semantics). -/
inductive Obj
  | plain (fields : List (String × Val))
  | arr (elems : List Val)
  | setObj (elems : List Val)
  | mapObj (entries : List (Val × Val))
  | date (t : Int)
  | regexp (src : String)
  | buffer (bytes : List Nat)
deriving DecidableEq

/-- The heap: object `ref r` lives at index `r`.  All references occurring
in modelled inputs are assumed valid (JS references cannot dangle); the
default is never reached on such inputs. -/
def Heap := List Obj

/-- Dereference. -/
def getObj (h : Heap) (r : Nat) : Obj := h.getD r (Obj.plain [])

/-- The prototype of an object, as far as `Object.getPrototypeOf(x) !==
Object.getPrototypeOf(y)` can distinguish the modelled object kinds. -/
inductive ProtoTag
  | plainT | arrT | setT | mapT | dateT | regexpT | bufferT
deriving DecidableEq

def protoTag : Obj → ProtoTag
  | Obj.plain _ => ProtoTag.plainT
  | Obj.arr _ => ProtoTag.arrT
  | Obj.setObj _ => ProtoTag.setT
  | Obj.mapObj _ => ProtoTag.mapT
  | Obj.date _ => ProtoTag.dateT
  | Obj.regexp _ => ProtoTag.regexpT
  | Obj.buffer _ => ProtoTag.bufferT

/-! ## The `visited` map

The source keeps `const visited = new Map()` mapping the left object of a
comparison to the right object it was last compared against:
`visited.set(x, y)` overwrites any earlier entry for `x`, and the memo
check is `visited.has(x) && visited.get(x) === y`.  The map is mutated in
place and threaded through the whole traversal, so the embedding passes
it as state.  Overwriting is modelled by shadowing: lookup returns the
most recent entry. -/
def Visited := List (Nat × Nat)

def visGet (vis : Visited) (k : Nat) : Option Nat :=
  (List.find? (fun e => e.1 = k) vis).map (fun e => e.2)

def visSet (vis : Visited) (k v : Nat) : Visited := (k, v) :: vis

/-- `Object.prototype.hasOwnProperty.call(y, key) ? y[key] : undefined`,
fused: the own-property lookup on a plain object. -/
def objLookup (fields : List (String × Val)) (k : String) : Option Val :=
  (List.find? (fun e => e.1 = k) fields).map (fun e => e.2)

/-- `Map.prototype.has` / `get` fused; JS map keys are compared by
SameValueZero, i.e. by `Val` identity on the modelled values. -/
def mapLookup (entries : List (Val × Val)) (k : Val) : Option Val :=
  (List.find? (fun e => e.1 = k) entries).map (fun e => e.2)

/-! ## The comparison loops

Each loop of the source `_equal` is a first-class function taking the
one-level comparator `eq1` (which will be `equal` at the next fuel level)
and threading the visited map left to right, exactly as the mutable map
is threaded by JS evaluation order.  `none` means the fuel ran out
somewhere inside. -/

/-- Array loop: `for i: if (!_equal(x[i], y[i])) return false` (lengths
are checked by the caller; the mismatch case is unreachable there). -/
def listEqWith (eq1 : Visited → Val → Val → Option (Bool × Visited)) :
    Visited → List Val → List Val → Option (Bool × Visited)
  | vis, [], [] => some (true, vis)
  | vis, x :: xs, y :: ys =>
    match eq1 vis x y with
    | none => none
    | some (false, vis1) => some (false, vis1)
    | some (true, vis1) => listEqWith eq1 vis1 xs ys
  | vis, _, _ => some (false, vis)

/-- Plain-object loop: `for key of keysX: if (!hasOwnProperty(y, key) ||
!_equal(x[key], y[key])) return false` (key counts checked by caller). -/
def objEqWith (eq1 : Visited → Val → Val → Option (Bool × Visited)) :
    Visited → List (String × Val) → List (String × Val) → Option (Bool × Visited)
  | vis, [], _ => some (true, vis)
  | vis, (k, v) :: rest, ys =>
    match objLookup ys k with
    | none => some (false, vis)
    | some w =>
      match eq1 vis v w with
      | none => none
      | some (false, vis1) => some (false, vis1)
      | some (true, vis1) => objEqWith eq1 vis1 rest ys

/-- Map loop: `for [key, value] of x: if (!y.has(key) ||
!_equal(value, y.get(key))) return false`. -/
def mapEqWith (eq1 : Visited → Val → Val → Option (Bool × Visited)) :
    Visited → List (Val × Val) → List (Val × Val) → Option (Bool × Visited)
  | vis, [], _ => some (true, vis)
  | vis, (k, v) :: rest, ys =>
    match mapLookup ys k with
    | none => some (false, vis)
    | some w =>
      match eq1 vis v w with
      | none => none
      | some (false, vis1) => some (false, vis1)
      | some (true, vis1) => mapEqWith eq1 vis1 rest ys

/-- `yValues.findIndex(yValue => _equal(value, yValue))` followed by
`yValues.splice(index, 1)`: scan the remaining candidates in order,
threading the visited map through failed trials, and on success return
the candidate list with the matched element removed (failed candidates
stay). -/
def setFindWith (eq1 : Visited → Val → Val → Option (Bool × Visited)) (v : Val) :
    Visited → List Val → Option (Option (List Val) × Visited)
  | vis, [] => some (none, vis)
  | vis, yv :: rest =>
    match eq1 vis v yv with
    | none => none
    | some (true, vis1) => some (some rest, vis1)
    | some (false, vis1) =>
      match setFindWith eq1 v vis1 rest with
      | none => none
      | some (none, vis2) => some (none, vis2)
      | some (some rem, vis2) => some (some (yv :: rem), vis2)

/-- Set loop: greedy first-match of each element of `x` against the
as-yet-unmatched elements of `y`. -/
def setEqWith (eq1 : Visited → Val → Val → Option (Bool × Visited)) :
    Visited → List Val → List Val → Option (Bool × Visited)
  | vis, [], _ => some (true, vis)
  | vis, v :: rest, ys =>
    match setFindWith eq1 v vis ys with
    | none => none
    | some (none, vis1) => some (false, vis1)
    | some (some ys1, vis1) => setEqWith eq1 vis1 rest ys1

/-- The body of `_equal` once both sides are known to be distinct
references whose pair is not memoized: prototype check, then the
type-directed comparisons in source order.  The final catch-all is
unreachable (the prototype tags already agree) but mirrors the fact that
mixed shapes compare unequal. -/
def equalObjs (eq1 : Visited → Val → Val → Option (Bool × Visited))
    (h : Heap) (vis : Visited) (rx ry : Nat) : Option (Bool × Visited) :=
  let ox := getObj h rx
  let oy := getObj h ry
  if protoTag ox ≠ protoTag oy then some (false, vis)
  else
    match ox, oy with
    | Obj.date t1, Obj.date t2 => some (decide (t1 = t2), vis)
    | Obj.regexp s1, Obj.regexp s2 => some (decide (s1 = s2), vis)
    | Obj.buffer b1, Obj.buffer b2 =>
      if b1.length ≠ b2.length then some (false, vis)
      else some (decide (b1 = b2), vis)
    | Obj.mapObj m1, Obj.mapObj m2 =>
      if m1.length ≠ m2.length then some (false, vis)
      else mapEqWith eq1 vis m1 m2
    | Obj.setObj s1, Obj.setObj s2 =>
      if s1.length ≠ s2.length then some (false, vis)
      else setEqWith eq1 vis s1 s2
    | Obj.arr a1, Obj.arr a2 =>
      if a1.length ≠ a2.length then some (false, vis)
      else listEqWith eq1 vis a1 a2
    | Obj.plain f1, Obj.plain f2 =>
      if f1.length ≠ f2.length then some (false, vis)
      else objEqWith eq1 vis f1 f2
    | _, _ => some (false, vis)

/-- `_equal(x, y)` with explicit fuel: `none` means the recursion did not
finish within `fuel` nested calls, so `(∀ fuel, … = none)` states that
the source function never returns (in JS: unbounded recursion until the
stack overflows).  The body mirrors the source line by line:
`x === y`, the non-object bail-out, the memo check
`visited.has(x) && visited.get(x) === y`, `visited.set(x, y)`, then
`equalObjs`. -/
def equalAux : Nat → Heap → Visited → Val → Val → Option (Bool × Visited)
  | 0, _, _, _, _ => none
  | Nat.succ n, h, vis, x, y =>
    if x = y then some (true, vis)
    else
      match x, y with
      | Val.ref rx, Val.ref ry =>
        if visGet vis rx = some ry then some (true, vis)
        else equalObjs (equalAux n h) h (visSet vis rx ry) rx ry
      | _, _ => some (false, vis)

/-- `equal(a, b)`: run `_equal` with a fresh visited map and drop the
final map.  `some b` is the boolean the source returns; `none` means the
call does not return within `fuel` nested calls. -/
def equal (fuel : Nat) (h : Heap) (a b : Val) : Option Bool :=
  (equalAux fuel h [] a b).map (fun r => r.1)

section EqualExamples

/-- Two separately allocated self-referential objects
`X = {self: X}` and `Y = {self: Y}`. -/
def selfHeap : Heap :=
  [Obj.plain [("self", Val.ref 0)], Obj.plain [("self", Val.ref 1)]]

example : equal 3 selfHeap (Val.ref 0) (Val.ref 1) = some true := by decide

/-- The same two cyclic graphs but with one differing leaf scalar. -/
def selfDiffHeap : Heap :=
  [Obj.plain [("self", Val.ref 0), ("k", Val.prim (Prim.num 1))],
   Obj.plain [("self", Val.ref 1), ("k", Val.prim (Prim.num 2))]]

example : equal 4 selfDiffHeap (Val.ref 0) (Val.ref 1) = some false := by decide

end EqualExamples

/-! ## Non-termination of `equal` on a 1-cycle versus a 2-cycle

The visited map is keyed on the left object only, and `visited.set(x, y)`
overwrites the previous partner of `x`.  Comparing `X = {p: X}` against
`Y = {p: Y2}`, `Y2 = {p: Y}` therefore alternates between the pairs
`(X, Y)` and `(X, Y2)`: each level finds the memo entry for `X` pointing
at the *other* partner, overwrites it, and recurses, so the memo check
never fires and the recursion never returns. -/

/-- `ref 0` is `X = {p: X}` (a 1-cycle); `ref 1` is `Y = {p: Y2}` and
`ref 2` is `Y2 = {p: Y}` (a 2-cycle). -/
def cycleClashHeap : Heap :=
  [Obj.plain [("p", Val.ref 0)],
   Obj.plain [("p", Val.ref 2)],
   Obj.plain [("p", Val.ref 1)]]

lemma equalAux_cycleClash (n : Nat) :
    ∀ vis : Visited,
      (visGet vis 0 ≠ some 1 →
        equalAux n cycleClashHeap vis (Val.ref 0) (Val.ref 1) = none)
      ∧ (visGet vis 0 ≠ some 2 →
        equalAux n cycleClashHeap vis (Val.ref 0) (Val.ref 2) = none) := by
  induction n with
  | zero => intro vis; exact ⟨fun _ => rfl, fun _ => rfl⟩
  | succ n ih =>
    intro vis
    constructor
    · intro hv
      show equalAux (n + 1) cycleClashHeap vis (Val.ref 0) (Val.ref 1) = none
      rw [equalAux]
      rw [if_neg (by decide), if_neg hv]
      have hrec := (ih (visSet vis 0 1)).2 (by simp [visGet, visSet])
      simp only [cycleClashHeap] at hrec
      simp [equalObjs, cycleClashHeap, getObj, protoTag, objEqWith, objLookup, hrec]
    · intro hv
      show equalAux (n + 1) cycleClashHeap vis (Val.ref 0) (Val.ref 2) = none
      rw [equalAux]
      rw [if_neg (by decide), if_neg hv]
      have hrec := (ih (visSet vis 0 2)).1 (by simp [visGet, visSet])
      simp only [cycleClashHeap] at hrec
      simp [equalObjs, cycleClashHeap, getObj, protoTag, objEqWith, objLookup, hrec]

/-! ## Asymmetry of `equal` through visited-map poisoning in Sets

Inside a Set comparison a failed candidate trial leaves its visited
entry behind.  With `p = {k:1}`, `p2 = {k:2}`, `q = {k:2}` and the arrays
`A1 = [p, 1]`, `A2 = [p2, 2]`, `B1 = [q, 2]`, `B2 = [q, 1]` (note `q` is
shared between `B1` and `B2`), comparing `Set{A1, A2}` against
`Set{B1, B2}` first tries `A1` against `B1`: the inner `_equal(p, q)`
fails honestly but records `visited[p] = q`; the next trial `A1` against
`B2` re-reaches the pair `(p, q)` and the memo now answers `true`, so the
whole comparison succeeds.  In the reversed direction no such stale entry
is consulted and the comparison fails. -/

/-- refs: 0 `p={k:1}`, 1 `p2={k:2}`, 2 `q={k:2}`, 3 `A1=[p,1]`,
4 `A2=[p2,2]`, 5 `B1=[q,2]`, 6 `B2=[q,1]`, 7 `Sa=Set{A1,A2}`,
8 `Sb=Set{B1,B2}`. -/
def setPoisonHeap : Heap :=
  [Obj.plain [("k", Val.prim (Prim.num 1))],
   Obj.plain [("k", Val.prim (Prim.num 2))],
   Obj.plain [("k", Val.prim (Prim.num 2))],
   Obj.arr [Val.ref 0, Val.prim (Prim.num 1)],
   Obj.arr [Val.ref 1, Val.prim (Prim.num 2)],
   Obj.arr [Val.ref 2, Val.prim (Prim.num 2)],
   Obj.arr [Val.ref 2, Val.prim (Prim.num 1)],
   Obj.setObj [Val.ref 3, Val.ref 4],
   Obj.setObj [Val.ref 5, Val.ref 6]]

/-- C5: the claim asserts that `equal` terminates in finite time for
*every* pair of inputs, cyclic ones included.  The two concrete examples
named by the claim do hold (second and third conjuncts), but the
universal termination claim fails: on the 1-cycle `X = {p: X}` versus the
2-cycle `Y = {p: Y2}`, `Y2 = {p: Y}` the recursion never returns at any
call depth (first conjunct), because the visited map is keyed on the left
object only and each visit overwrites the stored partner, so the memo
check never fires. -/
theorem c5_equal_termination_on_cycles :
    (∀ fuel : Nat, equal fuel cycleClashHeap (Val.ref 0) (Val.ref 1) = none)
    ∧ equal 3 selfHeap (Val.ref 0) (Val.ref 1) = some true
    ∧ equal 4 selfDiffHeap (Val.ref 0) (Val.ref 1) = some false := by
  refine ⟨fun fuel => ?_, by decide, by decide⟩
  have h := (equalAux_cycleClash fuel []).1 (by simp [visGet, List.find?])
  simp [equal, h]

/-- C6 counterexample: `equal` is not symmetric.  On the concrete heap
`setPoisonHeap` (two Sets of two arrays each, acyclic, with one shared
reference `q`), the left-to-right comparison returns `true` thanks to a
stale visited entry recorded by a failed Set candidate trial, while the
right-to-left comparison returns `false`.  Fuel 20 is ample: both runs
complete, as witnessed by the `some` results. -/
theorem c6_counterexample :
    equal 20 setPoisonHeap (Val.ref 7) (Val.ref 8) = some true
    ∧ equal 20 setPoisonHeap (Val.ref 8) (Val.ref 7) = some false := by
  exact ⟨by decide, by decide⟩

/-- C6 (amended): the comparator is symmetric on primitive (non-object)
inputs, where it reduces to `===`; for composite inputs symmetry can fail
(see `c6_counterexample`). -/
theorem c6_equal_symmetric_on_primitives (fuel : Nat) (h : Heap) (p q : Prim) :
    equal fuel h (Val.prim p) (Val.prim q) = equal fuel h (Val.prim q) (Val.prim p) := by
  cases fuel with
  | zero => rfl
  | succ n =>
    by_cases hpq : p = q
    · subst hpq; rfl
    · have h1 : ¬ (Val.prim p = Val.prim q) := by simpa using hpq
      have h2 : ¬ (Val.prim q = Val.prim p) := by simpa using (Ne.symm hpq)
      simp [equal, equalAux, h1, h2]

/-! ## The queue scheduler

`#processQueue` (v2.1.0, source lines 969-1000) walks the task queue
once.  Outside a group each test/info/skip task is executed and awaited
before the next starts; inside a group the pending result promises are
buffered, and at `group_end` the buffer is awaited with `Promise.all`
and the results are reported in buffer order (`#processGroupResults`,
lines 1002-1007).  `#report` (lines 1013-1024) folds each result into
the suite verdict and the current group verdict before the `onlyFailed`
filter and the reporter call.

Asynchrony is modelled by giving every executed task a settle time (the
instant its executor promise resolves) next to the result value it
resolves with.  `Promise.all` resolves with the results in input-array
order, whatever the settle times, which is exactly the ECMAScript
guarantee the source relies on. -/

/-- Verdicts carried by result records (`info` results carry none). -/
inductive Verdict
  | pass | fail | error | skip
deriving DecidableEq

/-- A settled result object as produced by `#executeTask`: either a
test/skip result (`{type:'test', gist, verdict, ...}`) or an info record
(`{type:'info', message}`, which has no `verdict` field). -/
inductive RunResult
  | test (gist : String) (verdict : Verdict)
  | info (message : String)
deriving DecidableEq

/-- `result.verdict` — `none` models JS `undefined` on info records. -/
def RunResult.verdict? : RunResult → Option Verdict
  | RunResult.test _ v => some v
  | RunResult.info _ => none

/-- `result.verdict === 'fail' || result.verdict === 'error'`. -/
def isFailing (r : RunResult) : Bool :=
  decide (r.verdict? = some Verdict.fail ∨ r.verdict? = some Verdict.error)

/-- `this.onlyFailed && result.verdict === 'pass'`. -/
def isSuppressed (onlyFailed : Bool) (r : RunResult) : Bool :=
  onlyFailed && decide (r.verdict? = some Verdict.pass)

/-- An executed test/info/skip task, seen from the scheduler: the promise
`#executeTask` returns, as the instant it settles plus the result it
resolves with (the executor never rejects: all faults become `error`
results). -/
structure ExecTask where
  settle : Nat
  result : RunResult
deriving DecidableEq

/-- A queue entry (`this.#queue`). -/
inductive QTask
  | group_start (gist : String)
  | group_end
  | run (t : ExecTask)
deriving DecidableEq

/-- A call on the Reporter boundary. -/
inductive RepEvent
  | report (r : RunResult)
  | groupStart (gist : String)
  | groupEnd (verdict : Verdict)
deriving DecidableEq

/-- The scheduler's mutable state during `#processQueue`: the fields
`#finalVerdict`, `#inGroup`, `#currentGroupVerdict`, the single promise
buffer of the open group, and the ordered trace of reporter calls made
so far. -/
structure SchedState where
  finalVerdict : Verdict
  inGroup : Bool
  groupVerdict : Verdict
  buffer : List ExecTask
  trace : List RepEvent
deriving DecidableEq

/-- `#report(result)` (v2.1.0 lines 1013-1024): record `fail`/`error`
into the suite verdict (and into the group verdict while inside a
group), then hand the result to the reporter unless suppressed by
`onlyFailed`. -/
def reportStep (onlyFailed : Bool) (st : SchedState) (r : RunResult) : SchedState :=
  let st1 :=
    if isFailing r then
      { st with
        finalVerdict := Verdict.fail,
        groupVerdict := if st.inGroup then Verdict.fail else st.groupVerdict }
    else st
  if isSuppressed onlyFailed r then st1
  else { st1 with trace := st1.trace ++ [RepEvent.report r] }

/-- `Promise.all` over the buffered promises: resolves once every entry
has settled, with the results in input order — settle times never
reorder the array. -/
def promiseAll (ps : List ExecTask) : List RunResult :=
  ps.map (fun t => t.result)

/-- One iteration of the `#processQueue` loop (v2.1.0 lines 972-999).
`group_end` awaits the buffer (`#processGroupResults`), reports the
results in buffer order, clears the buffer, and emits `groupEnd` with
the current group verdict; a test/info/skip task is buffered when inside
a group and otherwise awaited and reported immediately. -/
def schedStep (onlyFailed : Bool) (st : SchedState) (t : QTask) : SchedState :=
  match t with
  | QTask.group_start g =>
    { st with
      trace := st.trace ++ [RepEvent.groupStart g],
      inGroup := true,
      groupVerdict := Verdict.pass }
  | QTask.group_end =>
    let st1 := (promiseAll st.buffer).foldl (reportStep onlyFailed) st
    { st1 with
      buffer := [],
      trace := st1.trace ++ [RepEvent.groupEnd st1.groupVerdict],
      inGroup := false }
  | QTask.run t =>
    if st.inGroup then { st with buffer := st.buffer ++ [t] }
    else reportStep onlyFailed st t.result

/-- State at the top of `run()`: verdicts `'pass'`, no open group, empty
buffer, no reporter calls yet. -/
def initialState : SchedState :=
  { finalVerdict := Verdict.pass, inGroup := false,
    groupVerdict := Verdict.pass, buffer := [], trace := [] }

/-- `#processQueue`: fold the loop body over the queue. -/
def processQueue (onlyFailed : Bool) (q : List QTask) : SchedState :=
  q.foldl (schedStep onlyFailed) initialState

/-! ## Queues produced by the declaration API

`test`/`info`/`skip` push one executable task; `group` pushes a
`group_start` marker, then the tasks its callback declares, then
`group_end`.  The definition-order serialization of `group` guarantees
the markers of distinct groups never interleave and groups never nest,
so every queue the public API can build flattens a list of such
declarations. -/

/-- One top-level declaration: a lone task, or a bracketed group. -/
inductive Decl
  | single (t : ExecTask)
  | group (gist : String) (ts : List ExecTask)
deriving DecidableEq

/-- The queue fragment a declaration contributes. -/
def enqueueDecl : Decl → List QTask
  | Decl.single t => [QTask.run t]
  | Decl.group g ts =>
    QTask.group_start g :: (ts.map QTask.run ++ [QTask.group_end])

/-- The whole queue built by a declaration list. -/
def buildQueue : List Decl → List QTask
  | [] => []
  | d :: ds => enqueueDecl d ++ buildQueue ds

/-- All results produced by a run of the declarations, in declaration
order. -/
def declResults : List Decl → List RunResult
  | [] => []
  | Decl.single t :: ds => t.result :: declResults ds
  | Decl.group _ ts :: ds => ts.map (fun t => t.result) ++ declResults ds

/-- The reporter events a single result contributes. -/
def reportEvs (onlyFailed : Bool) (r : RunResult) : List RepEvent :=
  if isSuppressed onlyFailed r then [] else [RepEvent.report r]

/-- The reporter events of a list of results, in order. -/
def flushEvs (onlyFailed : Bool) : List RunResult → List RepEvent
  | [] => []
  | r :: rs => reportEvs onlyFailed r ++ flushEvs onlyFailed rs

/-- The aggregate verdict of a group's member results. -/
def aggVerdict (ts : List ExecTask) : Verdict :=
  if ts.any (fun t => isFailing t.result) then Verdict.fail else Verdict.pass

/-- The canonical reporter trace of one declaration. -/
def canonDecl (onlyFailed : Bool) : Decl → List RepEvent
  | Decl.single t => reportEvs onlyFailed t.result
  | Decl.group g ts =>
    RepEvent.groupStart g ::
      (flushEvs onlyFailed (ts.map (fun t => t.result)) ++
        [RepEvent.groupEnd (aggVerdict ts)])

/-- The canonical reporter trace of a declaration list: group starts,
buffered member results in declaration order, aggregate group verdicts,
and immediate reports for stand-alone tasks. -/
def canonTrace (onlyFailed : Bool) : List Decl → List RepEvent
  | [] => []
  | d :: ds => canonDecl onlyFailed d ++ canonTrace onlyFailed ds

/-! ## Characterizing a scheduler run -/

lemma reportStep_eq (of : Bool) (st : SchedState) (r : RunResult) :
    reportStep of st r =
      { finalVerdict := if isFailing r then Verdict.fail else st.finalVerdict,
        inGroup := st.inGroup,
        groupVerdict :=
          if st.inGroup && isFailing r then Verdict.fail else st.groupVerdict,
        buffer := st.buffer,
        trace := st.trace ++ reportEvs of r } := by
  obtain ⟨fv, ig, gv, buf, tr⟩ := st
  by_cases hf : isFailing r <;> by_cases hs : isSuppressed of r <;>
    cases ig <;> simp [reportStep, reportEvs, hf, hs]

lemma foldl_reportStep_eq (of : Bool) :
    ∀ (rs : List RunResult) (st : SchedState),
      rs.foldl (reportStep of) st =
        { finalVerdict :=
            if rs.any isFailing then Verdict.fail else st.finalVerdict,
          inGroup := st.inGroup,
          groupVerdict :=
            if st.inGroup && rs.any isFailing then Verdict.fail
            else st.groupVerdict,
          buffer := st.buffer,
          trace := st.trace ++ flushEvs of rs } := by
  intro rs
  induction rs with
  | nil => intro st; simp [flushEvs]
  | cons r rs ih =>
    intro st
    rw [List.foldl_cons, ih, reportStep_eq]
    obtain ⟨fv, ig, gv, buf, tr⟩ := st
    by_cases hr : isFailing r <;> cases ig <;>
      simp [hr, flushEvs, List.append_assoc]

lemma foldl_run_inGroup (of : Bool) :
    ∀ (ts : List ExecTask) (st : SchedState), st.inGroup = true →
      (ts.map QTask.run).foldl (schedStep of) st =
        { st with buffer := st.buffer ++ ts } := by
  intro ts
  induction ts with
  | nil => intro st _; simp
  | cons t ts ih =>
    intro st h
    rw [List.map_cons, List.foldl_cons]
    have hstep : schedStep of st (QTask.run t) =
        { st with buffer := st.buffer ++ [t] } := by
      simp [schedStep, h]
    rw [hstep, ih _ (by simp [h])]
    simp

lemma any_map_result (ts : List ExecTask) (p : RunResult → Bool) :
    (ts.map (fun t => t.result)).any p = ts.any (fun t => p t.result) := by
  induction ts with
  | nil => rfl
  | cons t ts ih => simp [ih]

/-- The group verdict the scheduler is left with after a declaration
list: the aggregate of the last group processed, if any. -/
def lastGroupVerdict (gv : Verdict) : List Decl → Verdict
  | [] => gv
  | Decl.single _ :: ds => lastGroupVerdict gv ds
  | Decl.group _ ts :: ds => lastGroupVerdict (aggVerdict ts) ds

lemma runChar (of : Bool) :
    ∀ (ds : List Decl) (st : SchedState),
      st.inGroup = false → st.buffer = [] →
      (buildQueue ds).foldl (schedStep of) st =
        { finalVerdict :=
            if (declResults ds).any isFailing then Verdict.fail
            else st.finalVerdict,
          inGroup := false,
          groupVerdict := lastGroupVerdict st.groupVerdict ds,
          buffer := [],
          trace := st.trace ++ canonTrace of ds } := by
  intro ds
  induction ds with
  | nil =>
    intro st h1 h2
    obtain ⟨fv, ig, gv, buf, tr⟩ := st
    simp only at h1 h2
    subst h1; subst h2
    simp [buildQueue, canonTrace, declResults, lastGroupVerdict]
  | cons d ds ih =>
    intro st h1 h2
    obtain ⟨fv, ig, gv, buf, tr⟩ := st
    simp only at h1 h2
    subst h1; subst h2
    rw [buildQueue, List.foldl_append]
    cases d with
    | single t =>
      simp only [enqueueDecl, List.foldl_cons, List.foldl_nil]
      have hstep : schedStep of ⟨fv, false, gv, [], tr⟩ (QTask.run t) =
          reportStep of ⟨fv, false, gv, [], tr⟩ t.result := by
        simp [schedStep]
      rw [hstep, reportStep_eq]
      rw [ih _ rfl rfl]
      by_cases hr : isFailing t.result <;>
        simp [declResults, canonTrace, canonDecl, lastGroupVerdict, hr,
          List.append_assoc]
    | group g ts =>
      simp only [enqueueDecl, List.foldl_cons]
      have hgs : schedStep of ⟨fv, false, gv, [], tr⟩ (QTask.group_start g) =
          ⟨fv, true, Verdict.pass, [], tr ++ [RepEvent.groupStart g]⟩ := by
        simp [schedStep]
      rw [hgs, List.foldl_append, foldl_run_inGroup of ts _ rfl]
      simp only [List.foldl_cons, List.foldl_nil, List.nil_append]
      have hge : schedStep of
          ⟨fv, true, Verdict.pass, ts, tr ++ [RepEvent.groupStart g]⟩
          QTask.group_end =
          ⟨if (ts.map (fun t => t.result)).any isFailing then Verdict.fail
              else fv,
            false, aggVerdict ts, [],
            (tr ++ [RepEvent.groupStart g] ++
              flushEvs of (ts.map (fun t => t.result))) ++
              [RepEvent.groupEnd (aggVerdict ts)]⟩ := by
        simp only [schedStep, promiseAll, foldl_reportStep_eq]
        have hany := any_map_result ts isFailing
        by_cases ha : ts.any (fun t => isFailing t.result) <;>
          simp [aggVerdict, hany, ha]
      rw [hge, ih _ rfl rfl]
      have hany := any_map_result ts isFailing
      by_cases ha : ts.any (fun t => isFailing t.result) <;>
        by_cases hd : (declResults ds).any isFailing <;>
        simp [declResults, canonTrace, canonDecl, lastGroupVerdict,
          aggVerdict, hany, ha, hd, List.any_append, List.append_assoc]

/-! ## Derived views of the reporter trace -/

/-- The results delivered to `Reporter.report`, in call order. -/
def reportedResults (tr : List RepEvent) : List RunResult :=
  tr.filterMap (fun e =>
    match e with
    | RepEvent.report r => some r
    | _ => none)

/-- The verdicts handed to `Reporter.groupEnd`, in call order. -/
def groupEndVerdicts (tr : List RepEvent) : List Verdict :=
  tr.filterMap (fun e =>
    match e with
    | RepEvent.groupEnd v => some v
    | _ => none)

/-- The aggregate verdicts the declaration list ought to produce, one per
group, in order. -/
def declGroupVerdicts : List Decl → List Verdict
  | [] => []
  | Decl.single _ :: ds => declGroupVerdicts ds
  | Decl.group _ ts :: ds => aggVerdict ts :: declGroupVerdicts ds

/-- Change every settle time (re-run the suite under a different
completion timing); the result values are untouched. -/
def retimeTask (f : Nat → Nat) (t : ExecTask) : ExecTask :=
  { settle := f t.settle, result := t.result }

def retimeDecl (f : Nat → Nat) : Decl → Decl
  | Decl.single t => Decl.single (retimeTask f t)
  | Decl.group g ts => Decl.group g (ts.map (retimeTask f))

lemma reportedResults_append (tr1 tr2 : List RepEvent) :
    reportedResults (tr1 ++ tr2) =
      reportedResults tr1 ++ reportedResults tr2 := by
  simp [reportedResults]

lemma groupEndVerdicts_append (tr1 tr2 : List RepEvent) :
    groupEndVerdicts (tr1 ++ tr2) =
      groupEndVerdicts tr1 ++ groupEndVerdicts tr2 := by
  simp [groupEndVerdicts]

lemma reportedResults_cons_report (r : RunResult) (tr : List RepEvent) :
    reportedResults (RepEvent.report r :: tr) = r :: reportedResults tr := rfl

lemma reportedResults_cons_groupStart (g : String) (tr : List RepEvent) :
    reportedResults (RepEvent.groupStart g :: tr) = reportedResults tr := rfl

lemma reportedResults_cons_groupEnd (v : Verdict) (tr : List RepEvent) :
    reportedResults (RepEvent.groupEnd v :: tr) = reportedResults tr := rfl

lemma groupEndVerdicts_cons_report (r : RunResult) (tr : List RepEvent) :
    groupEndVerdicts (RepEvent.report r :: tr) = groupEndVerdicts tr := rfl

lemma groupEndVerdicts_cons_groupStart (g : String) (tr : List RepEvent) :
    groupEndVerdicts (RepEvent.groupStart g :: tr) = groupEndVerdicts tr := rfl

lemma groupEndVerdicts_cons_groupEnd (v : Verdict) (tr : List RepEvent) :
    groupEndVerdicts (RepEvent.groupEnd v :: tr) =
      v :: groupEndVerdicts tr := rfl

lemma reportedResults_nil : reportedResults [] = [] := rfl

lemma groupEndVerdicts_nil : groupEndVerdicts [] = [] := rfl

lemma reportedResults_reportEvs (of : Bool) (r : RunResult) :
    reportedResults (reportEvs of r) =
      if isSuppressed of r then [] else [r] := by
  by_cases hs : isSuppressed of r <;>
    simp [reportEvs, hs, reportedResults_cons_report, reportedResults_nil]

lemma groupEndVerdicts_reportEvs (of : Bool) (r : RunResult) :
    groupEndVerdicts (reportEvs of r) = [] := by
  by_cases hs : isSuppressed of r <;>
    simp [reportEvs, hs, groupEndVerdicts_cons_report, groupEndVerdicts_nil]

lemma reportedResults_flushEvs (of : Bool) (rs : List RunResult) :
    reportedResults (flushEvs of rs) =
      rs.filter (fun r => !isSuppressed of r) := by
  induction rs with
  | nil => rfl
  | cons r rs ih =>
    rw [flushEvs, reportedResults_append, ih, reportedResults_reportEvs]
    by_cases hs : isSuppressed of r <;> simp [hs, List.filter_cons]

lemma groupEndVerdicts_flushEvs (of : Bool) (rs : List RunResult) :
    groupEndVerdicts (flushEvs of rs) = [] := by
  induction rs with
  | nil => rfl
  | cons r rs ih =>
    rw [flushEvs, groupEndVerdicts_append, ih, groupEndVerdicts_reportEvs]
    rfl

lemma reportedResults_canonTrace (of : Bool) (ds : List Decl) :
    reportedResults (canonTrace of ds) =
      (declResults ds).filter (fun r => !isSuppressed of r) := by
  induction ds with
  | nil => rfl
  | cons d ds ih =>
    rw [canonTrace, reportedResults_append, ih]
    cases d with
    | single t =>
      rw [declResults]
      show reportedResults (reportEvs of t.result) ++ _ = _
      rw [reportedResults_reportEvs]
      by_cases hs : isSuppressed of t.result <;>
        simp [hs, List.filter_cons]
    | group g ts =>
      rw [declResults, List.filter_append]
      show reportedResults (RepEvent.groupStart g ::
        (flushEvs of (ts.map (fun t => t.result)) ++
          [RepEvent.groupEnd (aggVerdict ts)])) ++ _ = _
      rw [reportedResults_cons_groupStart, reportedResults_append,
        reportedResults_flushEvs]
      simp [reportedResults_cons_groupEnd]
      rfl

lemma groupEndVerdicts_canonTrace (of : Bool) (ds : List Decl) :
    groupEndVerdicts (canonTrace of ds) = declGroupVerdicts ds := by
  induction ds with
  | nil => rfl
  | cons d ds ih =>
    rw [canonTrace, groupEndVerdicts_append, ih]
    cases d with
    | single t =>
      rw [declGroupVerdicts]
      show groupEndVerdicts (reportEvs of t.result) ++ _ = _
      rw [groupEndVerdicts_reportEvs]
      rfl
    | group g ts =>
      rw [declGroupVerdicts]
      show groupEndVerdicts (RepEvent.groupStart g ::
        (flushEvs of (ts.map (fun t => t.result)) ++
          [RepEvent.groupEnd (aggVerdict ts)])) ++ _ = _
      rw [groupEndVerdicts_cons_groupStart, groupEndVerdicts_append,
        groupEndVerdicts_flushEvs]
      rfl

lemma canonDecl_retime (of : Bool) (f : Nat → Nat) (d : Decl) :
    canonDecl of (retimeDecl f d) = canonDecl of d := by
  cases d with
  | single t => rfl
  | group g ts =>
    have h1 : (ts.map (retimeTask f)).map (fun t => t.result) =
        ts.map (fun t => t.result) := by
      induction ts with
      | nil => rfl
      | cons t ts ih => simp [retimeTask, ih]
    have h2 : (ts.map (retimeTask f)).any (fun t => isFailing t.result) =
        ts.any (fun t => isFailing t.result) := by
      induction ts with
      | nil => rfl
      | cons t ts ih => simp [retimeTask, ih]
    simp [canonDecl, retimeDecl, aggVerdict, h1, h2]

lemma canonTrace_retime (of : Bool) (f : Nat → Nat) (ds : List Decl) :
    canonTrace of (ds.map (retimeDecl f)) = canonTrace of ds := by
  induction ds with
  | nil => rfl
  | cons d ds ih => simp [canonTrace, canonDecl_retime, ih]

lemma processQueue_trace (of : Bool) (ds : List Decl) :
    (processQueue of (buildQueue ds)).trace = canonTrace of ds := by
  have h := runChar of ds initialState rfl rfl
  simp [processQueue, initialState] at h ⊢
  rw [h]

/-- C1: results reach `Reporter.report` in declaration order, for every
possible completion timing.  First conjunct: the sequence of results
delivered to `report` over a whole run is exactly the declared tasks'
results in declaration order (restricted to the results the `onlyFailed`
filter lets through); since `declResults` lists stand-alone tasks in
queue order and group members in buffering order, this is precisely the
ordering discipline of the claim.  Second conjunct: re-running the same
declarations under any other completion timing (an arbitrary reassignment
of settle times) produces the identical reporter trace, so results are
never delivered in completion order. -/
theorem c1_report_order (of : Bool) (ds : List Decl) (f : Nat → Nat) :
    reportedResults ((processQueue of (buildQueue ds)).trace)
        = (declResults ds).filter (fun r => !isSuppressed of r)
    ∧ (processQueue of (buildQueue (ds.map (retimeDecl f)))).trace
        = (processQueue of (buildQueue ds)).trace := by
  constructor
  · rw [processQueue_trace, reportedResults_canonTrace]
  · rw [processQueue_trace, processQueue_trace, canonTrace_retime]

/-- C2: after a run the suite verdict is `fail` exactly when some
produced result (suppressed or not: the verdict update in `#report`
precedes the `onlyFailed` filter) had verdict `fail` or `error`, and
`pass` otherwise (first conjunct, for every `onlyFailed` setting); and
the suite verdict is monotone: no scheduler step ever moves it off
`fail` (second conjunct). -/
theorem c2_final_verdict (of : Bool) (ds : List Decl) (st : SchedState)
    (t : QTask) :
    (processQueue of (buildQueue ds)).finalVerdict
        = (if (declResults ds).any isFailing then Verdict.fail
           else Verdict.pass)
    ∧ (schedStep of { st with finalVerdict := Verdict.fail } t).finalVerdict
        = Verdict.fail := by
  constructor
  · have h := runChar of ds initialState rfl rfl
    simp [processQueue, initialState] at h ⊢
    rw [h]
  · cases t with
    | group_start g => simp [schedStep]
    | group_end => simp [schedStep, foldl_reportStep_eq]
    | run t =>
      by_cases hg : st.inGroup <;>
        simp [schedStep, reportStep_eq, hg]

/-- C4: the verdict handed to each `Reporter.groupEnd` call is the
aggregate of that group's member results — `fail` iff at least one
member result is `fail` or `error` (third conjunct characterizes
`aggVerdict`), `pass` otherwise; the groups report in declaration order
(first conjunct); and the running group verdict is reset to `pass` by
every `group_start` (second conjunct). -/
theorem c4_group_verdict (of : Bool) (ds : List Decl) (st : SchedState)
    (g : String) (ts : List ExecTask) :
    groupEndVerdicts ((processQueue of (buildQueue ds)).trace)
        = declGroupVerdicts ds
    ∧ (schedStep of st (QTask.group_start g)).groupVerdict = Verdict.pass
    ∧ (aggVerdict ts = Verdict.fail
        ↔ ts.any (fun t => isFailing t.result) = true) := by
  refine ⟨?_, by simp [schedStep], ?_⟩
  · rw [processQueue_trace, groupEndVerdicts_canonTrace]
  · by_cases ha : ts.any (fun t => isFailing t.result) <;>
      simp [aggVerdict, ha]

/-- C8: with `onlyFailed = true` the filter in `#report` drops only
results whose verdict is `'pass'`.  A `skip` result is non-failing yet
still delivered to `Reporter.report` (first conjunct), contradicting the
claim (and the `onlyFailed` field's own JSDoc, which says passed and
skipped tests are suppressed).  The parts of the claim that do hold on
the code: a `pass` result is suppressed (second conjunct) and an `info`
result is never suppressed (third conjunct). -/
theorem c8_skip_reaches_reporter :
    (processQueue true
        (buildQueue [Decl.single ⟨0, RunResult.test "skipped" Verdict.skip⟩])).trace
      = [RepEvent.report (RunResult.test "skipped" Verdict.skip)]
    ∧ (processQueue true
        (buildQueue [Decl.single ⟨0, RunResult.test "passing" Verdict.pass⟩])).trace
      = []
    ∧ (processQueue true
        (buildQueue [Decl.single ⟨0, RunResult.info "note"⟩])).trace
      = [RepEvent.report (RunResult.info "note")] := by
  exact ⟨rfl, rfl, rfl⟩

/-! ## The single-test executor

`#executeTest(payload)` (v2.0.0 lines 589-622; byte-for-byte the same
algorithm in v2.1.0 line 962 and v3.0.2).  The executor is generic over
the type `V` of settled JS values, the Equality Engine `eqv` on them
(`this.equal`) and the `instanceof Error` test `isErr`, since its
control flow never inspects values beyond those two observations.

Asynchrony: a pending operation is described by the instant (relative to
the start of the race) at which it settles and how.  `Promise.race`
against the timeout timer is `settle < timeout` — an operation settling
at or after the timeout instant loses the race (the timeout timer is
registered first).  Operations that are plain values or synchronous
returns/throws win the race unconditionally: their microtask settles
before any timer macrotask. -/

/-- How a pending operation eventually settles. -/
inductive PBehavior (V : Type)
  | resolves (t : Nat) (v : V)
  | rejects (t : Nat) (e : V)
  | neverSettles

/-- `true` iff the pending value settles strictly before instant `tt`. -/
def PBehavior.settlesBefore {V : Type} : PBehavior V → Nat → Bool
  | PBehavior.resolves t _, tt => t < tt
  | PBehavior.rejects t _, tt => t < tt
  | PBehavior.neverSettles, _ => false

/-- The `testFn` operand of a payload, split along the observations the
executor makes of it: `typeof testFn === 'function'` (and if so, what
calling it does), and whether the produced `testResult` is a pending
promise or an immediate value. -/
inductive Operation (V : Type)
  | notFunction (v : V)
  | notFunctionPromise (pb : PBehavior V)
  | fnReturns (v : V)
  | fnReturnsPromise (pb : PBehavior V)
  | fnThrows (e : V)

/-- Pre-determined verdicts carried by a payload's `verdict` field
(`'skip'` from `skip()`, `'error'` from `handleError`). -/
inductive PreVerdict
  | skipV | errorV
deriving DecidableEq

def PreVerdict.toVerdict : PreVerdict → Verdict
  | PreVerdict.skipV => Verdict.skip
  | PreVerdict.errorV => Verdict.error

/-- The payload of a queued test/skip task (fields as destructured at
the top of `#executeTest`). -/
structure ExPayload (V : Type) where
  gist : String
  testFn : Operation V
  expect : V
  line : Option Nat
  verdict : Option PreVerdict := none
  timeout : Option Nat := none

/-- The `result` field of an executor result object. -/
inductive ExActual (V : Type)
  | ofVal (v : V)
  | timeoutErr (msg : String)
  | notExecuted
  | rawTestFn (op : Operation V)

/-- The result object `#executeTest` returns. -/
structure ExResult (V : Type) where
  gist : String
  verdict : Verdict
  result : ExActual V
  expect : V
  line : Option Nat

/-- The executor's observable outcome: the result object plus whether
the `testFn()` call site was reached (instrumentation for the "no user
code runs" part of the pre-determined-verdict contract). -/
structure ExecOut (V : Type) where
  res : ExResult V
  invokedTestFn : Bool

/-- The message of the Error the timeout branch constructs. -/
def timeoutMessage (ms : Nat) : String :=
  "Test timed out after " ++ toString ms ++ "ms"

/-- `#executeTest` (v2.0.0 lines 589-622).  Pre-determined verdicts are
emitted directly (`result` is the raw `testFn` for `'error'`, the
`'Not executed'` sentinel otherwise) without running user code.
Otherwise `testFn` is invoked if callable; a synchronous throw is caught
and becomes an `error` result; an immediate `testResult` that is an
`instanceof Error` becomes an `error` result before any await; otherwise
the (possibly immediate) value is awaited in a race against the timeout
timer of `timeout ?? this.timeout` ms.  A lost race yields an `error`
result carrying the timeout Error; a rejection yields an `error` result
carrying the reason; a resolution is compared with the Equality Engine
against `expect` for `pass`/`fail`.  Note there is no `instanceof Error`
check after the await. -/
def executeTest {V : Type} (eqv : V → V → Bool) (isErr : V → Bool)
    (defaultTimeout : Nat) (p : ExPayload V) : ExecOut V :=
  let testTimeout := p.timeout.getD defaultTimeout
  match p.verdict with
  | some pv =>
    { res := { gist := p.gist, verdict := pv.toVerdict,
               result := match pv with
                         | PreVerdict.errorV => ExActual.rawTestFn p.testFn
                         | PreVerdict.skipV => ExActual.notExecuted,
               expect := p.expect, line := p.line },
      invokedTestFn := false }
  | none =>
    match p.testFn with
    | Operation.fnThrows e =>
      { res := { gist := p.gist, verdict := Verdict.error,
                 result := ExActual.ofVal e, expect := p.expect,
                 line := p.line },
        invokedTestFn := true }
    | Operation.fnReturns v =>
      if isErr v then
        { res := { gist := p.gist, verdict := Verdict.error,
                   result := ExActual.ofVal v, expect := p.expect,
                   line := p.line },
          invokedTestFn := true }
      else
        { res := { gist := p.gist,
                   verdict := if eqv v p.expect then Verdict.pass
                              else Verdict.fail,
                   result := ExActual.ofVal v, expect := p.expect,
                   line := p.line },
          invokedTestFn := true }
    | Operation.notFunction v =>
      if isErr v then
        { res := { gist := p.gist, verdict := Verdict.error,
                   result := ExActual.ofVal v, expect := p.expect,
                   line := p.line },
          invokedTestFn := false }
      else
        { res := { gist := p.gist,
                   verdict := if eqv v p.expect then Verdict.pass
                              else Verdict.fail,
                   result := ExActual.ofVal v, expect := p.expect,
                   line := p.line },
          invokedTestFn := false }
    | Operation.fnReturnsPromise pb =>
      if pb.settlesBefore testTimeout then
        match pb with
        | PBehavior.resolves _ v =>
          { res := { gist := p.gist,
                     verdict := if eqv v p.expect then Verdict.pass
                                else Verdict.fail,
                     result := ExActual.ofVal v, expect := p.expect,
                     line := p.line },
            invokedTestFn := true }
        | PBehavior.rejects _ e =>
          { res := { gist := p.gist, verdict := Verdict.error,
                     result := ExActual.ofVal e, expect := p.expect,
                     line := p.line },
            invokedTestFn := true }
        | PBehavior.neverSettles =>
          { res := { gist := p.gist, verdict := Verdict.error,
                     result := ExActual.timeoutErr (timeoutMessage testTimeout),
                     expect := p.expect, line := p.line },
            invokedTestFn := true }
      else
        { res := { gist := p.gist, verdict := Verdict.error,
                   result := ExActual.timeoutErr (timeoutMessage testTimeout),
                   expect := p.expect, line := p.line },
          invokedTestFn := true }
    | Operation.notFunctionPromise pb =>
      if pb.settlesBefore testTimeout then
        match pb with
        | PBehavior.resolves _ v =>
          { res := { gist := p.gist,
                     verdict := if eqv v p.expect then Verdict.pass
                                else Verdict.fail,
                     result := ExActual.ofVal v, expect := p.expect,
                     line := p.line },
            invokedTestFn := false }
        | PBehavior.rejects _ e =>
          { res := { gist := p.gist, verdict := Verdict.error,
                     result := ExActual.ofVal e, expect := p.expect,
                     line := p.line },
            invokedTestFn := false }
        | PBehavior.neverSettles =>
          { res := { gist := p.gist, verdict := Verdict.error,
                     result := ExActual.timeoutErr (timeoutMessage testTimeout),
                     expect := p.expect, line := p.line },
            invokedTestFn := false }
      else
        { res := { gist := p.gist, verdict := Verdict.error,
                   result := ExActual.timeoutErr (timeoutMessage testTimeout),
                   expect := p.expect, line := p.line },
          invokedTestFn := false }

/-- The payload `skip(gist, testFn, expect)` pushes (source lines
458-464): the same fields as `test()` plus `verdict: 'skip'`. -/
def skipPayload {V : Type} (gist : String) (testFn : Operation V)
    (expect : V) (line : Option Nat) : ExPayload V :=
  { gist := gist, testFn := testFn, expect := expect, line := line,
    verdict := some PreVerdict.skipV }

/-- The payload `handleError(error, options)` pushes (source lines
402-411): the captured error as `testFn`, `expect: null` (`nullv` is the
model's JS `null` in `V`), `verdict: 'error'`. -/
def handleErrorPayload {V : Type} (nullv : V) (err : V) (gist : String)
    (line : Option Nat) : ExPayload V :=
  { gist := gist, testFn := Operation.notFunction err, expect := nullv,
    line := line, verdict := some PreVerdict.errorV }

/-- C3: for a payload without a pre-determined verdict the executor
races the operation against the `timeout ?? this.timeout` timer and
returns exactly one result: a lost race (the pending value settles at or
after the timer, or never) gives verdict `error` with an Error whose
message states the configured duration; a rejection that wins the race
gives `error` carrying the rejection reason; a resolution that wins the
race gives `pass` iff the Equality Engine relates it to `expect`, else
`fail`, carrying the resolved value; a synchronous throw gives `error`
carrying the thrown value; and an immediate non-Error value is compared
like a resolution. -/
theorem c3_timeout_race {V : Type} (eqv : V → V → Bool) (isErr : V → Bool)
    (defaultTimeout : Nat) (p : ExPayload V) (hpre : p.verdict = none) :
    (∀ pb : PBehavior V,
      (p.testFn = Operation.fnReturnsPromise pb ∨
        p.testFn = Operation.notFunctionPromise pb) →
      pb.settlesBefore (p.timeout.getD defaultTimeout) = false →
      (executeTest eqv isErr defaultTimeout p).res.verdict = Verdict.error ∧
      (executeTest eqv isErr defaultTimeout p).res.result =
        ExActual.timeoutErr (timeoutMessage (p.timeout.getD defaultTimeout)))
    ∧ (∀ (t : Nat) (e : V),
      (p.testFn = Operation.fnReturnsPromise (PBehavior.rejects t e) ∨
        p.testFn = Operation.notFunctionPromise (PBehavior.rejects t e)) →
      t < p.timeout.getD defaultTimeout →
      (executeTest eqv isErr defaultTimeout p).res.verdict = Verdict.error ∧
      (executeTest eqv isErr defaultTimeout p).res.result = ExActual.ofVal e)
    ∧ (∀ (t : Nat) (v : V),
      (p.testFn = Operation.fnReturnsPromise (PBehavior.resolves t v) ∨
        p.testFn = Operation.notFunctionPromise (PBehavior.resolves t v)) →
      t < p.timeout.getD defaultTimeout →
      (executeTest eqv isErr defaultTimeout p).res.verdict =
        (if eqv v p.expect then Verdict.pass else Verdict.fail) ∧
      (executeTest eqv isErr defaultTimeout p).res.result = ExActual.ofVal v)
    ∧ (∀ e : V, p.testFn = Operation.fnThrows e →
      (executeTest eqv isErr defaultTimeout p).res.verdict = Verdict.error ∧
      (executeTest eqv isErr defaultTimeout p).res.result = ExActual.ofVal e)
    ∧ (∀ v : V,
      (p.testFn = Operation.fnReturns v ∨ p.testFn = Operation.notFunction v) →
      isErr v = false →
      (executeTest eqv isErr defaultTimeout p).res.verdict =
        (if eqv v p.expect then Verdict.pass else Verdict.fail) ∧
      (executeTest eqv isErr defaultTimeout p).res.result = ExActual.ofVal v) := by
  obtain ⟨g, fn, exp, line, pv, tmo⟩ := p
  simp only at hpre
  subst hpre
  refine ⟨?_, ?_, ?_, ?_, ?_⟩
  · rintro pb (rfl | rfl) hsb <;>
      exact ⟨by simp [executeTest, hsb], by simp [executeTest, hsb]⟩
  · rintro t e (rfl | rfl) ht <;>
      have hsb : (PBehavior.rejects t e).settlesBefore
          (Option.getD tmo defaultTimeout) = true := by
        simp [PBehavior.settlesBefore, ht]
    all_goals exact ⟨by simp [executeTest, hsb], by simp [executeTest, hsb]⟩
  · rintro t v (rfl | rfl) ht <;>
      have hsb : (PBehavior.resolves t v).settlesBefore
          (Option.getD tmo defaultTimeout) = true := by
        simp [PBehavior.settlesBefore, ht]
    all_goals exact ⟨by simp [executeTest, hsb], by simp [executeTest, hsb]⟩
  · rintro e rfl
    exact ⟨by simp [executeTest], by simp [executeTest]⟩
  · rintro v (rfl | rfl) hv <;>
      exact ⟨by simp [executeTest, hv], by simp [executeTest, hv]⟩

/-- Witness for C3 at a concrete input: an operation resolving with `7`
at instant 5, raced against a per-task 50 ms timeout, passes against
expectation `7`. -/
theorem c3_witness :
    (executeTest (fun a b : Int => a == b) (fun _ => false) 2000
        { gist := "t",
          testFn := Operation.fnReturnsPromise
            (PBehavior.resolves 5 (7 : Int)),
          expect := 7, line := none, verdict := none,
          timeout := some 50 }).res.verdict = Verdict.pass := by
  have h := c3_timeout_race (fun a b : Int => a == b) (fun _ => false) 2000
    { gist := "t",
      testFn := Operation.fnReturnsPromise (PBehavior.resolves 5 (7 : Int)),
      expect := 7, line := none, verdict := none, timeout := some 50 } rfl
  have h2 := (h.2.2.1 5 7 (Or.inl rfl) (by decide)).1
  simpa using h2

/-- C7: a payload carrying a pre-determined verdict is emitted directly,
without reaching the `testFn()` call site; its `result` is the raw
carried `testFn` (for `'error'`, this is the error object `handleError`
routed in) or the `'Not executed'` sentinel (for `'skip'`); and the
payloads pushed by `skip()` and `handleError()` carry exactly those
verdicts. -/
theorem c7_predetermined {V : Type} (eqv : V → V → Bool) (isErr : V → Bool)
    (defaultTimeout : Nat) (p : ExPayload V) (pv : PreVerdict)
    (hpv : p.verdict = some pv) :
    (executeTest eqv isErr defaultTimeout p).invokedTestFn = false
    ∧ (executeTest eqv isErr defaultTimeout p).res.verdict = pv.toVerdict
    ∧ (executeTest eqv isErr defaultTimeout p).res.result =
        (match pv with
          | PreVerdict.errorV => ExActual.rawTestFn p.testFn
          | PreVerdict.skipV => ExActual.notExecuted)
    ∧ (∀ (g : String) (fn : Operation V) (e : V) (l : Option Nat),
        (skipPayload g fn e l).verdict = some PreVerdict.skipV ∧
        (executeTest eqv isErr defaultTimeout (skipPayload g fn e l)).res.result
          = ExActual.notExecuted)
    ∧ (∀ (nullv err : V) (g : String) (l : Option Nat),
        (handleErrorPayload nullv err g l).verdict = some PreVerdict.errorV ∧
        (executeTest eqv isErr defaultTimeout
            (handleErrorPayload nullv err g l)).res.result
          = ExActual.rawTestFn (Operation.notFunction err)) := by
  obtain ⟨g, fn, exp, line, pv0, tmo⟩ := p
  simp only at hpv
  subst hpv
  refine ⟨by simp [executeTest], by simp [executeTest], by cases pv <;> simp [executeTest], ?_, ?_⟩
  · intro g fn e l
    exact ⟨rfl, by simp [executeTest, skipPayload]⟩
  · intro nullv err g l
    exact ⟨rfl, by simp [executeTest, handleErrorPayload]⟩

/-- Witness for C7 at a concrete input: executing the payload `skip()`
pushes never reaches `testFn()` and yields verdict `skip`. -/
theorem c7_witness :
    (executeTest (fun a b : Int => a == b) (fun _ => false) 2000
        (skipPayload "s" (Operation.notFunction (0 : Int)) 1 none)).invokedTestFn
      = false
    ∧ (executeTest (fun a b : Int => a == b) (fun _ => false) 2000
        (skipPayload "s" (Operation.notFunction (0 : Int)) 1 none)).res.verdict
      = Verdict.skip := by
  have h := c7_predetermined (fun a b : Int => a == b) (fun _ => false) 2000
    (skipPayload "s" (Operation.notFunction (0 : Int)) 1 none)
    PreVerdict.skipV rfl
  exact ⟨h.1, (h.2.1).trans rfl⟩

/-- C10: an operation that *is* an Error instance, or synchronously
returns one, short-circuits to verdict `error` carrying that Error —
the comparison against `expect` is skipped (the conclusion does not
depend on `eqv` or `expect`, which are universally quantified).  The
check happens before the await only: a promise that wins the race and
*resolves* with an Error instance is not short-circuited and is compared
against `expect` for `pass`/`fail`. -/
theorem c10_error_instance_shortcut {V : Type} (eqv : V → V → Bool)
    (isErr : V → Bool) (defaultTimeout : Nat) (p : ExPayload V)
    (hpre : p.verdict = none) :
    (∀ v : V,
      (p.testFn = Operation.fnReturns v ∨ p.testFn = Operation.notFunction v) →
      isErr v = true →
      (executeTest eqv isErr defaultTimeout p).res.verdict = Verdict.error ∧
      (executeTest eqv isErr defaultTimeout p).res.result = ExActual.ofVal v)
    ∧ (∀ (t : Nat) (v : V),
      (p.testFn = Operation.fnReturnsPromise (PBehavior.resolves t v) ∨
        p.testFn = Operation.notFunctionPromise (PBehavior.resolves t v)) →
      t < p.timeout.getD defaultTimeout →
      isErr v = true →
      (executeTest eqv isErr defaultTimeout p).res.verdict =
        (if eqv v p.expect then Verdict.pass else Verdict.fail) ∧
      (executeTest eqv isErr defaultTimeout p).res.result = ExActual.ofVal v) := by
  obtain ⟨g, fn, exp, line, pv, tmo⟩ := p
  simp only at hpre
  subst hpre
  constructor
  · rintro v (rfl | rfl) hv <;>
      exact ⟨by simp [executeTest, hv], by simp [executeTest, hv]⟩
  · rintro t v (rfl | rfl) ht _ <;>
      have hsb : (PBehavior.resolves t v).settlesBefore
          (Option.getD tmo defaultTimeout) = true := by
        simp [PBehavior.settlesBefore, ht]
    all_goals exact ⟨by simp [executeTest, hsb], by simp [executeTest, hsb]⟩

/-- Witness for C10 at a concrete input (`isErr` marks the value `99`):
a function synchronously returning the Error `99` yields verdict `error`
even though `99` equals the expectation, while a promise resolving with
the same Error value yields `pass` by comparison. -/
theorem c10_witness :
    (executeTest (fun a b : Int => a == b) (fun v : Int => v == 99) 2000
        { gist := "t", testFn := Operation.fnReturns (99 : Int),
          expect := 99, line := none, verdict := none,
          timeout := none }).res.verdict = Verdict.error
    ∧ (executeTest (fun a b : Int => a == b) (fun v : Int => v == 99) 2000
        { gist := "t",
          testFn := Operation.fnReturnsPromise
            (PBehavior.resolves 5 (99 : Int)),
          expect := 99, line := none, verdict := none,
          timeout := none }).res.verdict = Verdict.pass := by
  constructor
  · have h := c10_error_instance_shortcut (fun a b : Int => a == b)
      (fun v : Int => v == 99) 2000
      { gist := "t", testFn := Operation.fnReturns (99 : Int),
        expect := 99, line := none, verdict := none, timeout := none } rfl
    exact (h.1 99 (Or.inl rfl) (by decide)).1
  · have h := c10_error_instance_shortcut (fun a b : Int => a == b)
      (fun v : Int => v == 99) 2000
      { gist := "t",
        testFn := Operation.fnReturnsPromise (PBehavior.resolves 5 (99 : Int)),
        expect := 99, line := none, verdict := none, timeout := none } rfl
    have h2 := (h.2 5 99 (Or.inl rfl) (by decide) (by decide)).1
    simpa using h2

/-! ## The interception subsystem (spy)

`spyOn(obj, methodName)` (v2.1.0 line 952, v3.0.2 lines 198-226; the
v2.0.0 variant lacks the override combinators but has the identical
wrapper).  The guard throws unless `obj[methodName]` is a function, so
the model takes the original method directly as a function value.  The
installed wrapper does `spy.callCount++; spy.calls.push(args); return
currentImplementation.apply(this, args)`; successive invocations of the
patched method are modelled by folding `spyInvoke` over the argument
tuples, since between calls only the spy record changes. -/

/-- The spy handle's mutable record: `callCount`, the call log, the
active implementation and the saved original (for `restore`). -/
structure SpyState (A R : Type) where
  callCount : Nat
  calls : List (List A)
  currentImplementation : List A → R
  originalMethod : List A → R

/-- `spyOn`: fresh handle with `callCount: 0`, `calls: []`, and the
original method as the active implementation. -/
def spyOn {A R : Type} (originalMethod : List A → R) : SpyState A R :=
  { callCount := 0, calls := [], currentImplementation := originalMethod,
    originalMethod := originalMethod }

/-- One invocation of the patched method with argument tuple `args`:
bump the counter, append the tuple, run the active implementation. -/
def spyInvoke {A R : Type} (s : SpyState A R) (args : List A) :
    SpyState A R × R :=
  ({ s with callCount := s.callCount + 1, calls := s.calls ++ [args] },
   s.currentImplementation args)

/-- A sequence of invocations, oldest first. -/
def spyInvokeMany {A R : Type} (s : SpyState A R)
    (argss : List (List A)) : SpyState A R :=
  argss.foldl (fun st a => (spyInvoke st a).1) s

/-- `restore()`: the target gets the saved original method back. -/
def spyRestore {A R : Type} (s : SpyState A R) : List A → R :=
  s.originalMethod

lemma spyInvokeMany_char {A R : Type} :
    ∀ (argss : List (List A)) (s : SpyState A R),
      (spyInvokeMany s argss).callCount = s.callCount + argss.length
      ∧ (spyInvokeMany s argss).calls = s.calls ++ argss := by
  intro argss
  induction argss with
  | nil => intro s; exact ⟨rfl, by simp [spyInvokeMany]⟩
  | cons a argss ih =>
    intro s
    have h := ih { s with callCount := s.callCount + 1,
                          calls := s.calls ++ [a] }
    refine ⟨?_, ?_⟩
    · calc (spyInvokeMany s (a :: argss)).callCount
          = s.callCount + 1 + argss.length := h.1
        _ = s.callCount + (a :: argss).length := by
            simp [Nat.add_assoc, Nat.add_comm 1]
    · calc (spyInvokeMany s (a :: argss)).calls
          = (s.calls ++ [a]) ++ argss := h.2
        _ = s.calls ++ (a :: argss) := by simp

/-- C9: a fresh spy handle starts with `callCount = 0` and an empty call
log; each invocation of the patched method bumps `callCount` by exactly
one and appends exactly the invocation's argument tuple; hence after any
sequence of invocations `callCount` equals the number of invocations and
the call log is exactly the sequence of argument tuples in call order
(so `calls[i]` is the i-th invocation's argument tuple). -/
theorem c9_spy_call_log {A R : Type} (f : List A → R)
    (argss : List (List A)) (s : SpyState A R) (a : List A) :
    (spyOn f).callCount = 0
    ∧ (spyOn f).calls = []
    ∧ ((spyInvoke s a).1).callCount = s.callCount + 1
    ∧ ((spyInvoke s a).1).calls = s.calls ++ [a]
    ∧ (spyInvokeMany (spyOn f) argss).callCount = argss.length
    ∧ (spyInvokeMany (spyOn f) argss).calls = argss := by
  have h := spyInvokeMany_char argss (spyOn f)
  refine ⟨rfl, rfl, rfl, rfl, ?_, ?_⟩
  · simpa [spyOn] using h.1
  · simpa [spyOn] using h.2
